import Mathlib

set_option maxHeartbeats 1000000

/-!
Verification development for the clade worktree CLI.

The Go sources are shallowly embedded: every external `git` subprocess is
abstracted as a field of `GitWorld` (a deterministic oracle from the command
inputs to its observable outcome), and each Go function that consults a
subprocess becomes a Lean function over a `GitWorld`.  Pure Go helpers
(`strings.TrimSpace`, `strings.Fields`, `strconv.Atoi`, `filepath.Base`) are
modelled character-for-character on `List Char`.  The persisted JSON state is
modelled with association lists for Go maps, an `Option` wrapper recording
whether a map is nil, and an explicit read/parse result for the state file.
-/

namespace Clade

/-- Character predicate of Go `unicode.IsSpace` (the whitespace set used by
`strings.TrimSpace` and `strings.Fields`). -/
def goIsSpace (c : Char) : Bool :=
  c = ' ' || c = '\t' || c = '\n' || c = '\x0b' || c = '\x0c' || c = '\r' ||
  c = '\x85' || c = '\xa0' || c = ' ' ||
  (' ' ≤ c && c ≤ ' ') ||
  c = ' ' || c = ' ' || c = ' ' || c = ' ' || c = '　'

/-- Model of Go `strings.TrimSpace`: drop leading and trailing whitespace. -/
def goTrimSpace (s : String) : String :=
  ⟨((s.data.dropWhile goIsSpace).reverse.dropWhile goIsSpace).reverse⟩

/-- Accumulator-based splitter behind `goFields`; splits around runs of
whitespace, dropping empty fields, exactly as Go `strings.Fields` does. -/
def goFieldsAux (cs : List Char) (acc : List Char) : List (List Char) :=
  match cs with
  | [] => if acc = [] then [] else [acc.reverse]
  | c :: rest =>
    if goIsSpace c then
      if acc = [] then goFieldsAux rest []
      else acc.reverse :: goFieldsAux rest []
    else goFieldsAux rest (c :: acc)

/-- Model of Go `strings.Fields`. -/
def goFields (s : String) : List String :=
  (goFieldsAux s.data []).map fun l => ⟨l⟩

/-- Largest value of Go int (64-bit). -/
def int64Max : Int := 9223372036854775807

/-- Smallest value of Go int (64-bit). -/
def int64Min : Int := -9223372036854775808

/-- Model of Go `strconv.Atoi` with its error discarded, as in
`localAhead, _ = strconv.Atoi(parts[0])`: optional sign followed by ASCII
digits parses to the value (clamped to the int64 range, which is what Atoi
returns alongside ErrRange); any malformed input yields 0. -/
def goAtoi (s : String) : Int :=
  let p : Bool × List Char :=
    match s.data with
    | '+' :: rest => (false, rest)
    | '-' :: rest => (true, rest)
    | rest => (false, rest)
  if p.2 = [] || !(p.2.all Char.isDigit) then 0
  else
    let m : Nat := p.2.foldl (fun a c => a * 10 + (c.toNat - 48)) 0
    if p.1 then
      if (m : Int) > 9223372036854775808 then int64Min else -(m : Int)
    else
      if (m : Int) > int64Max then int64Max else (m : Int)

/-- Trailing-separator stripping step of Go `filepath.Base` (Unix separator). -/
def stripTrailingSlashes (cs : List Char) : List Char :=
  (cs.reverse.dropWhile fun c => decide (c = '/')).reverse

/-- Suffix after the last slash, as Go `filepath.Base` computes with
`path[i+1:]` for the last separator index `i` (the whole path when there is no
separator). -/
def lastComponent (cs : List Char) : List Char :=
  (cs.reverse.takeWhile fun c => !decide (c = '/')).reverse

/-- Model of Go `filepath.Base` on Unix: "." for the empty path, "/" when the
path consists only of separators, otherwise the final component after
stripping trailing separators. -/
def filepathBase (path : String) : String :=
  if path.data = [] then "."
  else
    let cs := stripTrailingSlashes path.data
    if cs = [] then "/" else ⟨lastComponent cs⟩

/-- Branch location classification, from the git package (`BranchStatus`). -/
inductive BranchStatus where
  | BranchNotFound
  | BranchLocalOnly
  | BranchRemoteOnly
  | BranchBoth
deriving DecidableEq, Repr

/-- Result record of `CheckBranch`, from the git package (`BranchInfo`).
The numeric fields default to 0 and `diverged` to false, matching the Go
zero-valued struct literal `BranchInfo{Status: BranchNotFound}`. -/
structure BranchInfo where
  status : BranchStatus
  localAhead : Int := 0
  remoteBehind : Int := 0
  diverged : Bool := false
deriving DecidableEq, Repr

/-- Deterministic oracle for the git subprocesses the embedded functions run.
Each field abstracts one external command as a function of its inputs:
`showRef` is the exit success of `git show-ref --verify --quiet` for
(repoPath, branch); `lsRemote` is the captured stdout of
`git ls-remote --heads origin branch` (`none` when the command fails);
`revList` is the stdout of `git rev-list --left-right --count` (`none` when it
fails); `hasOrigin` is the exit success of `git remote get-url origin`;
`defaultBranch` is the result of `GetDefaultBranch`; `worktreeAdd` is the
outcome of `git worktree add` run in the given directory with the given
argument list (the error carries the combined output).  `git fetch`, whose
error every caller ignores, has no observable effect in this embedding. -/
structure GitWorld where
  showRef : String → String → Bool
  lsRemote : String → String → Option String
  revList : String → String → Option String
  hasOrigin : String → Bool
  defaultBranch : String → String
  worktreeAdd : String → List String → Except String Unit

/-- Embedding of `branchExistsLocal`: the exit success of
`git show-ref --verify --quiet refs/heads/branch`; a failed command (for any
reason) reports false. -/
def branchExistsLocal (w : GitWorld) (repoPath branch : String) : Bool :=
  w.showRef repoPath branch

/-- Embedding of `branchExistsRemote`: `git ls-remote --heads origin branch`;
a failed command reports false, otherwise the trimmed output must be
non-empty. -/
def branchExistsRemote (w : GitWorld) (repoPath branch : String) : Bool :=
  match w.lsRemote repoPath branch with
  | none => false
  | some output => (goTrimSpace output).length > 0

/-- Embedding of `getBranchDivergence`: parse the two-field output of
`git rev-list --left-right --count branch...origin/branch`; any failure or a
field count other than two yields (0, 0, false). -/
def getBranchDivergence (w : GitWorld) (repoPath branch : String) :
    Int × Int × Bool :=
  match w.revList repoPath branch with
  | none => (0, 0, false)
  | some output =>
    match goFields (goTrimSpace output) with
    | [p0, p1] =>
      let localAhead := goAtoi p0
      let remoteAhead := goAtoi p1
      (localAhead, remoteAhead, decide (localAhead > 0) && decide (remoteAhead > 0))
    | _ => (0, 0, false)

/-- Embedding of `CheckBranch`: classify a branch by local and remote
existence, and fill in the divergence numbers when it exists on both sides.
The Go function returns a plain `BranchInfo` with no error channel. -/
def CheckBranch (w : GitWorld) (repoPath branch : String) : BranchInfo :=
  let localExists := branchExistsLocal w repoPath branch
  let remoteExists := branchExistsRemote w repoPath branch
  if localExists && remoteExists then
    let d := getBranchDivergence w repoPath branch
    { status := BranchStatus.BranchBoth, localAhead := d.1,
      remoteBehind := d.2.1, diverged := d.2.2 }
  else if localExists then
    { status := BranchStatus.BranchLocalOnly }
  else if remoteExists then
    { status := BranchStatus.BranchRemoteOnly }
  else
    { status := BranchStatus.BranchNotFound }

/-- Embedding of `CreateWorktreeNew`.  The returned Bool records whether the
`git worktree add` subprocess was invoked.  Mirrors the source: fetch (error
ignored, "might be offline"), re-check the branch, refuse when it exists
anywhere, otherwise branch from the origin default branch when an origin remote
is configured and from HEAD when not. -/
def CreateWorktreeNew (w : GitWorld) (repoPath worktreePath branch : String) :
    Except String Unit × Bool :=
  let info := CheckBranch w repoPath branch
  if info.status ≠ BranchStatus.BranchNotFound then
    (Except.error ("branch \x27" ++ branch ++ "\x27 already exists"), false)
  else
    let cmdArgs :=
      if w.hasOrigin repoPath then
        ["worktree", "add", "-b", branch, worktreePath,
         "origin/" ++ w.defaultBranch repoPath]
      else
        ["worktree", "add", "-b", branch, worktreePath, "HEAD"]
    match w.worktreeAdd repoPath cmdArgs with
    | Except.ok _ => (Except.ok (), true)
    | Except.error msg =>
      (Except.error ("failed to create worktree: " ++ msg), true)

/-- The three worktree-creation strategies of the git package:
`CreateWorktreeNew` (fresh branch from the remote default),
`CreateWorktreeFromBranch` (checkout of an existing local branch), and
`CreateWorktreeTrackRemote` (track-remote checkout). -/
inductive WorktreeStrategy where
  | New
  | FromBranch
  | TrackRemote
deriving DecidableEq, Repr

/-- Strategy selected by the switch in `runProjectCreate` as a function of the
preflight `BranchStatus` of one repository. -/
def projectCreateStrategy : BranchStatus → WorktreeStrategy
  | BranchStatus.BranchNotFound => WorktreeStrategy.New
  | BranchStatus.BranchLocalOnly => WorktreeStrategy.FromBranch
  | BranchStatus.BranchBoth => WorktreeStrategy.FromBranch
  | BranchStatus.BranchRemoteOnly => WorktreeStrategy.TrackRemote

/-- Strategy selected by `adoptOrphanedBranch` in resume.go as a function of
the `CheckBranch` status: `BranchNotFound` returns the error "branch not
found" before any worktree creation (modelled as `none`); the switch then
covers the three remaining statuses. -/
def adoptStrategy : BranchStatus → Option WorktreeStrategy
  | BranchStatus.BranchNotFound => none
  | BranchStatus.BranchLocalOnly => some WorktreeStrategy.FromBranch
  | BranchStatus.BranchRemoteOnly => some WorktreeStrategy.TrackRemote
  | BranchStatus.BranchBoth => some WorktreeStrategy.FromBranch

/-- Association-list lookup modelling `m[k]` on a Go `map[string]V`. -/
def lookupMap {α : Type} (m : List (String × α)) (k : String) : Option α :=
  match m with
  | [] => none
  | (k2, v) :: rest => if k2 = k then some v else lookupMap rest k

/-- Association-list insertion modelling `m[k] = v` on a Go `map[string]V`:
replace the binding when the key is present, append it when absent. -/
def insertMap {α : Type} (m : List (String × α)) (k : String) (v : α) :
    List (String × α) :=
  match m with
  | [] => [(k, v)]
  | (k2, v2) :: rest =>
    if k2 = k then (k, v) :: rest else (k2, v2) :: insertMap rest k v

/-- The keys of an association list are pairwise distinct, the invariant a Go
map enjoys by construction. -/
def keysUnique {α : Type} (m : List (String × α)) : Prop :=
  (m.map Prod.fst).Nodup

instance keysUniqueDecidable {α : Type} (m : List (String × α)) :
    Decidable (keysUnique m) :=
  inferInstanceAs (Decidable ((m.map Prod.fst).Nodup))

/-- Experiment record, from internal/config/state.go (timestamps modelled as
integers). -/
structure Experiment where
  name : String
  repo : String
  path : String
  branch : String
  ticket : String
  created : Int
  lastUsed : Int
deriving DecidableEq, Repr

/-- Repo entry of a project record, from internal/config/state.go. -/
structure ProjectRepo where
  name : String
  source : String
deriving DecidableEq, Repr

/-- Project record, from internal/config/state.go. -/
structure Project where
  name : String
  path : String
  branch : String
  repos : List ProjectRepo
  created : Int
  lastUsed : Int
deriving DecidableEq, Repr

/-- Scratch record, from internal/config/state.go. -/
structure Scratch where
  name : String
  path : String
  ticket : String
  created : Int
  lastUsed : Int
deriving DecidableEq, Repr

/-- The persisted state document, from internal/config/state.go.  Each map is
wrapped in `Option`: `none` models a nil Go map, `some` an allocated one. -/
structure State where
  version : Int
  experiments : Option (List (String × Experiment))
  projects : Option (List (String × Project))
  scratches : Option (List (String × Scratch))
deriving DecidableEq, Repr

/-- The freshly initialized state `LoadState` starts from: version 1 and three
allocated empty maps. -/
def freshState : State :=
  { version := 1, experiments := some [], projects := some [],
    scratches := some [] }

/-- Embedding of `ExperimentKey`: basename of the repo path, "-", name. -/
def ExperimentKey (repo name : String) : String :=
  filepathBase repo ++ "-" ++ name

/-- Embedding of `State.AddExperiment`: store the record under its derived
key.  (Go would panic on a nil map; `LoadState` always hands out non-nil maps,
so the nil case is read as the empty map here.) -/
def State.addExperiment (s : State) (e : Experiment) : State :=
  let key := ExperimentKey e.repo e.name
  { s with experiments := some (insertMap (s.experiments.getD []) key e) }

/-- Embedding of `State.GetExperiment`: map lookup by key. -/
def State.getExperiment (s : State) (key : String) : Option Experiment :=
  lookupMap (s.experiments.getD []) key

/-- Fields of the on-disk JSON document as far as `json.Unmarshal` observes
them: the outer `Option` records whether the key is present in the document,
the inner one distinguishes a JSON null (which nils the map) from a map
value. -/
structure RawStateDoc where
  version : Option Int
  experiments : Option (Option (List (String × Experiment)))
  projects : Option (Option (List (String × Project)))
  scratches : Option (Option (List (String × Scratch)))

/-- Merge semantics of `json.Unmarshal(data, state)` into a pre-initialized
state: an absent key leaves the existing field, a present key overwrites it
(null writes a nil map). -/
def unmarshalInto (init : State) (d : RawStateDoc) : State :=
  { version := (match d.version with | none => init.version | some v => v)
    experiments :=
      (match d.experiments with | none => init.experiments | some v => v)
    projects := (match d.projects with | none => init.projects | some v => v)
    scratches :=
      (match d.scratches with | none => init.scratches | some v => v) }

/-- The nil-map defaulting block at the end of `LoadState`: replace every nil
map with an allocated empty one. -/
def ensureMaps (s : State) : State :=
  { s with experiments := some (s.experiments.getD []),
           projects := some (s.projects.getD []),
           scratches := some (s.scratches.getD []) }

/-- Outcome of reading the state file: the file does not exist, the read
fails for another reason, or it yields content whose JSON either fails to
parse (`none`) or parses to a document. -/
inductive ReadResult where
  | notExist
  | readFailed (msg : String)
  | fileOk (doc : Option RawStateDoc)

/-- Embedding of `LoadState`: a missing file yields the fresh state without
error, a failed read or failed unmarshal is reported, and a parsed document is
merged into the fresh state with nil maps re-allocated afterwards. -/
def LoadState (r : ReadResult) : Except String State :=
  match r with
  | ReadResult.notExist => Except.ok freshState
  | ReadResult.readFailed msg => Except.error msg
  | ReadResult.fileOk none => Except.error "unmarshal failed"
  | ReadResult.fileOk (some d) =>
    Except.ok (ensureMaps (unmarshalInto freshState d))

/-- Name under which `addSingleRepo` registers a repository: the custom name
when one was passed, the basename of the repo root otherwise. -/
def registrationName (repoRoot customName : String) : String :=
  if customName = "" then filepathBase repoRoot else customName

/-- Embedding of `addSingleRepo` acting on the `cfg.Repos` mapping.  `expand`
abstracts `config.ExpandPath` (it consults the home directory); the
result pairs the reported outcome with the mapping after the call.  A name
bound to the same expanded root is a successful no-op; a name bound to a
different root is an error that leaves the mapping unchanged; a free name is
inserted. -/
def addSingleRepo (expand : String → String) (repos : List (String × String))
    (repoRoot customName : String) :
    Except String Unit × List (String × String) :=
  let name := registrationName repoRoot customName
  match lookupMap repos name with
  | some existing =>
    if expand existing = repoRoot then (Except.ok (), repos)
    else
      (Except.error ("name \x27" ++ name ++ "\x27 already registered for " ++
        existing), repos)
  | none => (Except.ok (), insertMap repos name repoRoot)

/-- One loop iteration of `scanAndAddRepos` acting on the mapping: `none`
models an entry skipped before the map is consulted (not a directory, not a
git repository, or `GetRepoRoot` failed); for a repo root, an occupied name is
skipped (whether the same root, counted as already registered, or a conflict,
warned about) and a free name is inserted. -/
def scanStep (repos : List (String × String)) (entry : Option String) :
    List (String × String) :=
  match entry with
  | none => repos
  | some repoRoot =>
    let name := filepathBase repoRoot
    match lookupMap repos name with
    | some _ => repos
    | none => insertMap repos name repoRoot

/-- Embedding of the `scanAndAddRepos` loop over directory entries. -/
def scanAndAddRepos (repos : List (String × String))
    (entries : List (Option String)) : List (String × String) :=
  List.foldl scanStep repos entries

/-- Observable outcome of the creation phase of the exp/feat handlers: the
reported result, the state object that gets persisted, and whether the
worktree-add subprocess ran and the .clade.json metadata write was reached. -/
structure ExpCreateResult where
  result : Except String Unit
  finalState : State
  worktreeAddInvoked : Bool
  metadataWritten : Bool
deriving Repr

/-- Embedding of the creation phase shared by `runExp` and `runFeat` (the code
from the branch-availability check onward): when `CheckBranch` reports any
existing branch the handler stops with "branch already exists" before creating
a worktree, writing metadata, or touching the state; otherwise it runs
`CreateWorktreeNew`, and on success writes the metadata file and records the
experiment in the state. -/
def runExpCreatePhase (w : GitWorld) (st : State)
    (repoPath expPath branch : String) (e : Experiment) : ExpCreateResult :=
  let binfo := CheckBranch w repoPath branch
  if binfo.status ≠ BranchStatus.BranchNotFound then
    { result := Except.error "branch already exists", finalState := st,
      worktreeAddInvoked := false, metadataWritten := false }
  else
    match CreateWorktreeNew w repoPath expPath branch with
    | (Except.error msg, invoked) =>
      { result := Except.error ("failed to create worktree: " ++ msg),
        finalState := st, worktreeAddInvoked := invoked,
        metadataWritten := false }
    | (Except.ok _, invoked) =>
      { result := Except.ok (), finalState := st.addExperiment e,
        worktreeAddInvoked := invoked, metadataWritten := true }

/-- First-character class of the name pattern `[a-zA-Z0-9]`. -/
def isWordStart (c : Char) : Bool :=
  ('a' ≤ c && c ≤ 'z') || ('A' ≤ c && c ≤ 'Z') || ('0' ≤ c && c ≤ '9')

/-- Remaining-character class of the name pattern `[a-zA-Z0-9_-]`. -/
def isWordRest (c : Char) : Bool :=
  isWordStart c || c = '_' || c = '-'

/-- Matching semantics of the anchored Go regular expression
`^[a-zA-Z0-9][a-zA-Z0-9_-]*$` used by the validators. -/
def matchNamePattern (s : String) : Bool :=
  match s.data with
  | [] => false
  | c :: rest => isWordStart c && rest.all isWordRest

/-- Embedding of `isValidExpName` (exp.go): reject the empty string, then
match the name pattern. -/
def isValidExpName (name : String) : Bool :=
  if name = "" then false else matchNamePattern name

/-- Embedding of `isValidScratchName` (agent.go), textually identical to
`isValidExpName`. -/
def isValidScratchName (name : String) : Bool :=
  if name = "" then false else matchNamePattern name

/-- Acceptance predicate written from the words of the spec for claim C6: the
string is non-empty, its first character is alphanumeric, and every remaining
character is alphanumeric, a hyphen, or an underscore. -/
def SpecAcceptsName (s : String) : Prop :=
  s ≠ "" ∧ ∃ c rest, s.data = c :: rest ∧
    (('a' ≤ c ∧ c ≤ 'z') ∨ ('A' ≤ c ∧ c ≤ 'Z') ∨ ('0' ≤ c ∧ c ≤ '9')) ∧
    ∀ x ∈ rest,
      ('a' ≤ x ∧ x ≤ 'z') ∨ ('A' ≤ x ∧ x ≤ 'Z') ∨ ('0' ≤ x ∧ x ≤ '9') ∨
      x = '-' ∨ x = '_'

/-- World in which the branch exists locally and every remote query fails. -/
def worldLocalOnly : GitWorld :=
  { showRef := fun _ _ => true, lsRemote := fun _ _ => none,
    revList := fun _ _ => none, hasOrigin := fun _ => false,
    defaultBranch := fun _ => "main", worktreeAdd := fun _ _ => Except.ok () }

/-- World in which the branch exists on both sides but the rev-list query
fails. -/
def worldRevFail : GitWorld :=
  { showRef := fun _ _ => true, lsRemote := fun _ _ => some "ref",
    revList := fun _ _ => none, hasOrigin := fun _ => true,
    defaultBranch := fun _ => "main", worktreeAdd := fun _ _ => Except.ok () }

/-- World in which the branch exists on both sides and the rev-list output has
three fields instead of two. -/
def worldBadSplit : GitWorld :=
  { showRef := fun _ _ => true, lsRemote := fun _ _ => some "ref",
    revList := fun _ _ => some "1 2 3", hasOrigin := fun _ => true,
    defaultBranch := fun _ => "main", worktreeAdd := fun _ _ => Except.ok () }

/-- World in which both existence queries fail. -/
def worldAllFail : GitWorld :=
  { showRef := fun _ _ => false, lsRemote := fun _ _ => none,
    revList := fun _ _ => none, hasOrigin := fun _ => false,
    defaultBranch := fun _ => "main",
    worktreeAdd := fun _ _ => Except.error "no repo" }

/-- World in which the local query fails and the remote query reports the
branch. -/
def worldRemoteOnly : GitWorld :=
  { showRef := fun _ _ => false, lsRemote := fun _ _ => some "ref",
    revList := fun _ _ => none, hasOrigin := fun _ => true,
    defaultBranch := fun _ => "main", worktreeAdd := fun _ _ => Except.ok () }

/-- Concrete experiment in the repository /a/proj. -/
def expA : Experiment :=
  { name := "x", repo := "/a/proj", path := "p1", branch := "exp/x",
    ticket := "", created := 0, lastUsed := 0 }

/-- Concrete experiment of the same name in the distinct repository /b/proj
with the same basename. -/
def expB : Experiment :=
  { name := "x", repo := "/b/proj", path := "p2", branch := "exp/x",
    ticket := "", created := 1, lastUsed := 1 }

/-- Concrete one-entry registration mapping. -/
def reposWit : List (String × String) := [("proj", "/x/proj")]

/-- Concrete parsed state document that nulls the experiments and scratches
maps and omits the projects map. -/
def rawDocWit : RawStateDoc :=
  { version := none, experiments := some none, projects := none,
    scratches := some none }

/-- The state `LoadState` computes for `rawDocWit`. -/
def loadedWit : State := ensureMaps (unmarshalInto freshState rawDocWit)

/-- The divergence flag computed by `getBranchDivergence` always equals the
conjunction of the two positivity tests on the counts it returns. -/
theorem getBranchDivergence_flag (w : GitWorld) (r b : String) :
    (getBranchDivergence w r b).2.2 =
      (decide (0 < (getBranchDivergence w r b).1) &&
       decide (0 < (getBranchDivergence w r b).2.1)) := by
  unfold getBranchDivergence
  cases h : w.revList r b with
  | none => simp
  | some out =>
    cases hf : goFields (goTrimSpace out) with
    | nil => simp [hf]
    | cons p0 t =>
      cases t with
      | nil => simp [hf]
      | cons p1 t2 =>
        cases t2 with
        | nil => simp [hf]
        | cons p2 t3 => simp [hf]

/-- When the rev-list query fails, `getBranchDivergence` returns zeros and a
false flag. -/
theorem getBranchDivergence_none (w : GitWorld) (r b : String)
    (h : w.revList r b = none) : getBranchDivergence w r b = (0, 0, false) := by
  unfold getBranchDivergence
  rw [h]

/-- When the rev-list output does not split into exactly two fields,
`getBranchDivergence` returns zeros and a false flag. -/
theorem getBranchDivergence_badSplit (w : GitWorld) (r b out : String)
    (h : w.revList r b = some out)
    (h2 : (goFields (goTrimSpace out)).length ≠ 2) :
    getBranchDivergence w r b = (0, 0, false) := by
  unfold getBranchDivergence
  rw [h]
  cases hf : goFields (goTrimSpace out) with
  | nil => simp [hf]
  | cons p0 t =>
    cases t with
    | nil => simp [hf]
    | cons p1 t2 =>
      cases t2 with
      | nil => exact absurd (by rw [hf]; rfl) h2
      | cons p2 t3 => simp [hf]

/-- C1: the classification computed by `CheckBranch` is a pure function of the
two booleans (local-exists, remote-exists): `BranchBoth` when both hold,
`BranchLocalOnly` when only the local side holds, `BranchRemoteOnly` when only
the remote side holds, and `BranchNotFound` when neither holds — exactly one
of the four states in every case. -/
theorem checkBranch_status_pure (w : GitWorld) (r b : String) :
    (CheckBranch w r b).status =
      match branchExistsLocal w r b, branchExistsRemote w r b with
      | true, true => BranchStatus.BranchBoth
      | true, false => BranchStatus.BranchLocalOnly
      | false, true => BranchStatus.BranchRemoteOnly
      | false, false => BranchStatus.BranchNotFound := by
  unfold CheckBranch
  cases hl : branchExistsLocal w r b <;>
    cases hr : branchExistsRemote w r b <;> simp [hl, hr]

/-- C2: the `Diverged` flag returned by `CheckBranch` is true iff both the
local-ahead and the remote-ahead counts are strictly positive; it is false
whenever the status is not `BranchBoth`, whenever the rev-list query fails,
and whenever the query output does not split into exactly two fields. -/
theorem checkBranch_diverged_iff (w : GitWorld) (r b : String) :
    ((CheckBranch w r b).diverged = true ↔
      0 < (CheckBranch w r b).localAhead ∧
      0 < (CheckBranch w r b).remoteBehind) ∧
    ((CheckBranch w r b).status ≠ BranchStatus.BranchBoth →
      (CheckBranch w r b).diverged = false) ∧
    (w.revList r b = none → (CheckBranch w r b).diverged = false) ∧
    (∀ out, w.revList r b = some out →
      (goFields (goTrimSpace out)).length ≠ 2 →
      (CheckBranch w r b).diverged = false) := by
  have hflag := getBranchDivergence_flag w r b
  refine ⟨?_, ?_, ?_, ?_⟩
  · unfold CheckBranch
    cases hl : branchExistsLocal w r b <;>
      cases hr : branchExistsRemote w r b <;> simp [hl, hr]
    rw [hflag]
    simp
  · intro h
    unfold CheckBranch at h ⊢
    cases hl : branchExistsLocal w r b <;>
      cases hr : branchExistsRemote w r b <;> simp [hl, hr] at h ⊢
  · intro h
    have hz := getBranchDivergence_none w r b h
    unfold CheckBranch
    cases hl : branchExistsLocal w r b <;>
      cases hr : branchExistsRemote w r b <;> simp [hl, hr, hz]
  · intro out h1 h2
    have hz := getBranchDivergence_badSplit w r b out h1 h2
    unfold CheckBranch
    cases hl : branchExistsLocal w r b <;>
      cases hr : branchExistsRemote w r b <;> simp [hl, hr, hz]

/-- Witness for C2 at concrete worlds: a failing rev-list query, a
local-only status, and a three-field rev-list output each yield a false
divergence flag. -/
theorem checkBranch_diverged_iff_witness :
    (CheckBranch worldRevFail "r" "b").diverged = false ∧
    (CheckBranch worldLocalOnly "r" "b").diverged = false ∧
    (CheckBranch worldBadSplit "r" "b").diverged = false :=
  ⟨(checkBranch_diverged_iff worldRevFail "r" "b").2.2.1 rfl,
   (checkBranch_diverged_iff worldLocalOnly "r" "b").2.1 (by decide),
   (checkBranch_diverged_iff worldBadSplit "r" "b").2.2.2 "1 2 3" rfl
     (by decide)⟩

/-- C4: `CheckBranch` reports no error.  A failed local query counts as
"no local branch" and a failed remote query as "no remote branch", so both
queries failing yields `BranchNotFound` and one side failing demotes the
classification to the single-sided state decided by the other query. -/
theorem checkBranch_failure_silent (w : GitWorld) (r b : String) :
    (w.showRef r b = false → w.lsRemote r b = none →
      (CheckBranch w r b).status = BranchStatus.BranchNotFound) ∧
    (w.showRef r b = false →
      (CheckBranch w r b).status = BranchStatus.BranchNotFound ∨
      (CheckBranch w r b).status = BranchStatus.BranchRemoteOnly) ∧
    (w.lsRemote r b = none →
      (CheckBranch w r b).status = BranchStatus.BranchNotFound ∨
      (CheckBranch w r b).status = BranchStatus.BranchLocalOnly) := by
  refine ⟨?_, ?_, ?_⟩
  · intro h1 h2
    unfold CheckBranch branchExistsLocal branchExistsRemote
    rw [h1, h2]
    simp
  · intro h1
    unfold CheckBranch branchExistsLocal
    rw [h1]
    cases hr : branchExistsRemote w r b <;> simp [hr]
  · intro h2
    have hre : branchExistsRemote w r b = false := by
      unfold branchExistsRemote
      rw [h2]
    unfold CheckBranch
    rw [hre]
    cases hl : branchExistsLocal w r b <;> simp [hl]

/-- Witness for C4 at concrete worlds: both queries failing yields
`BranchNotFound`; a failed local query yields one of the remote-decided
states; a failed remote query yields one of the local-decided states. -/
theorem checkBranch_failure_silent_witness :
    (CheckBranch worldAllFail "r" "b").status = BranchStatus.BranchNotFound ∧
    ((CheckBranch worldRemoteOnly "r" "b").status =
        BranchStatus.BranchNotFound ∨
      (CheckBranch worldRemoteOnly "r" "b").status =
        BranchStatus.BranchRemoteOnly) ∧
    ((CheckBranch worldLocalOnly "r" "b").status =
        BranchStatus.BranchNotFound ∨
      (CheckBranch worldLocalOnly "r" "b").status =
        BranchStatus.BranchLocalOnly) :=
  ⟨(checkBranch_failure_silent worldAllFail "r" "b").1 rfl rfl,
   (checkBranch_failure_silent worldRemoteOnly "r" "b").2.1 rfl,
   (checkBranch_failure_silent worldLocalOnly "r" "b").2.2 rfl⟩

/-- C3 counterexample: when adopting an orphaned branch on resume, the status
`BranchNotFound` selects no creation strategy at all — `adoptOrphanedBranch`
returns the error "branch not found" instead of using `CreateWorktreeNew` as
the claim states. -/
theorem adopt_notFound_no_strategy :
    adoptStrategy BranchStatus.BranchNotFound = none ∧
    adoptStrategy BranchStatus.BranchNotFound ≠ some WorktreeStrategy.New :=
  ⟨rfl, by decide⟩

/-- C3 (amended): project creation selects `CreateWorktreeNew` iff the status
is `BranchNotFound`, `CreateWorktreeFromBranch` iff it is `BranchLocalOnly` or
`BranchBoth`, and `CreateWorktreeTrackRemote` iff it is `BranchRemoteOnly`;
adopting an orphaned branch aborts on `BranchNotFound` without creating a
worktree, and on the three existing statuses follows the same table, never
selecting `CreateWorktreeNew`. -/
theorem worktree_strategy_table :
    (∀ s, projectCreateStrategy s = WorktreeStrategy.New ↔
      s = BranchStatus.BranchNotFound) ∧
    (∀ s, projectCreateStrategy s = WorktreeStrategy.FromBranch ↔
      (s = BranchStatus.BranchLocalOnly ∨ s = BranchStatus.BranchBoth)) ∧
    (∀ s, projectCreateStrategy s = WorktreeStrategy.TrackRemote ↔
      s = BranchStatus.BranchRemoteOnly) ∧
    (adoptStrategy BranchStatus.BranchNotFound = none) ∧
    (∀ s, adoptStrategy s = some WorktreeStrategy.FromBranch ↔
      (s = BranchStatus.BranchLocalOnly ∨ s = BranchStatus.BranchBoth)) ∧
    (∀ s, adoptStrategy s = some WorktreeStrategy.TrackRemote ↔
      s = BranchStatus.BranchRemoteOnly) ∧
    (∀ s, adoptStrategy s ≠ some WorktreeStrategy.New) := by
  refine ⟨fun s => ?_, fun s => ?_, fun s => ?_, rfl, fun s => ?_,
    fun s => ?_, fun s => ?_⟩ <;>
      cases s <;> simp [projectCreateStrategy, adoptStrategy]

/-- Witness for C3 (amended) at concrete statuses: `BranchNotFound` maps to
the fresh-branch strategy in project creation and `BranchLocalOnly` to the
local-checkout strategy in adoption. -/
theorem worktree_strategy_table_witness :
    projectCreateStrategy BranchStatus.BranchNotFound = WorktreeStrategy.New ∧
    adoptStrategy BranchStatus.BranchLocalOnly =
      some WorktreeStrategy.FromBranch :=
  ⟨(worktree_strategy_table.1 BranchStatus.BranchNotFound).mpr rfl,
   (worktree_strategy_table.2.2.2.2.1 BranchStatus.BranchLocalOnly).mpr
     (Or.inl rfl)⟩

/-- C5: whenever `CheckBranch` reports any status other than
`BranchNotFound`, `CreateWorktreeNew` returns the error
"branch already exists" (naming the branch) without invoking git worktree add, and the
creation phase of the exp/feat handlers stops with "branch already exists"
before creating a worktree, writing metadata, or adding an experiment record,
leaving the state unchanged. -/
theorem branchExists_aborts (w : GitWorld) (r wt b : String) (st : State)
    (e : Experiment)
    (h : (CheckBranch w r b).status ≠ BranchStatus.BranchNotFound) :
    CreateWorktreeNew w r wt b =
      (Except.error ("branch \x27" ++ b ++ "\x27 already exists"), false) ∧
    (runExpCreatePhase w st r wt b e).result =
      Except.error "branch already exists" ∧
    (runExpCreatePhase w st r wt b e).finalState = st ∧
    (runExpCreatePhase w st r wt b e).worktreeAddInvoked = false ∧
    (runExpCreatePhase w st r wt b e).metadataWritten = false := by
  unfold CreateWorktreeNew runExpCreatePhase
  rw [if_pos h, if_pos h]
  simp

/-- Witness for C5 at a concrete world in which the branch exists locally. -/
theorem branchExists_aborts_witness :
    CreateWorktreeNew worldLocalOnly "r" "wt" "b" =
      (Except.error ("branch \x27" ++ "b" ++ "\x27 already exists"), false) ∧
    (runExpCreatePhase worldLocalOnly freshState "r" "wt" "b" expA).result =
      Except.error "branch already exists" ∧
    (runExpCreatePhase worldLocalOnly freshState "r" "wt" "b" expA).finalState =
      freshState ∧
    (runExpCreatePhase worldLocalOnly freshState "r" "wt" "b"
        expA).worktreeAddInvoked = false ∧
    (runExpCreatePhase worldLocalOnly freshState "r" "wt" "b"
        expA).metadataWritten = false :=
  branchExists_aborts worldLocalOnly "r" "wt" "b" freshState expA (by decide)

/-- Dropping a prefix predicate stops at a head that fails it. -/
theorem dropWhile_cons_false (p : Char → Bool) (x : Char) (xs : List Char)
    (h : p x = false) : (x :: xs).dropWhile p = x :: xs := by
  simp [List.dropWhile, h]

/-- Taking a prefix predicate over a list that satisfies it throughout,
followed by an element that fails it, returns exactly that list. -/
theorem takeWhile_append_sat (p : Char → Bool) (l1 : List Char) (a : Char)
    (l2 : List Char) (h : ∀ x ∈ l1, p x = true) (ha : p a = false) :
    (l1 ++ a :: l2).takeWhile p = l1 := by
  induction l1 with
  | nil => simp [List.takeWhile, ha]
  | cons x xs ih =>
    have hx : p x = true := h x (by simp)
    simp only [List.cons_append, List.takeWhile, hx]
    exact congrArg (List.cons x) (ih fun y hy => h y (by simp [hy]))

/-- The basename of `dir ++ "/" ++ file` is `file` whenever `file` is a
non-empty final component containing no separator. -/
theorem filepathBase_append (dir file : String) (hne : file ≠ "")
    (hs : ∀ c ∈ file.data, c ≠ '/') :
    filepathBase (dir ++ "/" ++ file) = file := by
  obtain ⟨fl⟩ := file
  obtain ⟨dl⟩ := dir
  have hfl : fl ≠ [] := by
    intro h
    apply hne
    rw [h]
  have hdata : (String.mk dl ++ "/" ++ String.mk fl).data = dl ++ '/' :: fl := by
    show dl ++ ['/'] ++ fl = dl ++ '/' :: fl
    simp
  obtain ⟨c, t, hrev⟩ : ∃ c t, fl.reverse = c :: t := by
    cases hr : fl.reverse with
    | nil => exact absurd (List.reverse_eq_nil_iff.mp hr) hfl
    | cons c t => exact ⟨c, t, rfl⟩
  have hc : c ∈ fl := by
    rw [← List.mem_reverse, hrev]
    simp
  have hcs : ∀ x ∈ fl, decide (x = '/') = false := by
    intro x hx
    simpa using hs x hx
  have hrevall : (dl ++ '/' :: fl).reverse = fl.reverse ++ '/' :: dl.reverse := by
    rw [List.reverse_append, List.reverse_cons]
    simp
  have hstrip : stripTrailingSlashes (dl ++ '/' :: fl) = dl ++ '/' :: fl := by
    unfold stripTrailingSlashes
    rw [hrevall, hrev, List.cons_append]
    rw [dropWhile_cons_false (fun x => decide (x = '/')) c
      (t ++ '/' :: dl.reverse) (hcs c hc)]
    rw [← List.cons_append, ← hrev, ← hrevall, List.reverse_reverse]
  have hlast : lastComponent (dl ++ '/' :: fl) = fl := by
    unfold lastComponent
    rw [hrevall]
    rw [takeWhile_append_sat _ fl.reverse '/' dl.reverse
      (fun x hx => by simp [hcs x (List.mem_reverse.mp hx)]) (by simp)]
    exact List.reverse_reverse fl
  unfold filepathBase
  rw [hdata]
  rw [if_neg (by simp)]
  simp only [hstrip, hlast]
  rw [if_neg (by simp)]

/-- C7: `ExperimentKey` is deterministic — equal arguments yield equal keys —
and for a repo path whose final component is a non-empty slash-free name the
key is that final component, "-", and the experiment name. -/
theorem experimentKey_deterministic :
    (∀ r1 n1 r2 n2 : String, r1 = r2 → n1 = n2 →
      ExperimentKey r1 n1 = ExperimentKey r2 n2) ∧
    (∀ dir file n : String, file ≠ "" → (∀ c ∈ file.data, c ≠ '/') →
      ExperimentKey (dir ++ "/" ++ file) n = file ++ "-" ++ n) := by
  constructor
  · intro r1 n1 r2 n2 h1 h2
    rw [h1, h2]
  · intro dir file n h1 h2
    unfold ExperimentKey
    rw [filepathBase_append dir file h1 h2]

/-- Witness for C7 at a concrete repo path and name. -/
theorem experimentKey_deterministic_witness :
    ExperimentKey ("home" ++ "/" ++ "proj") "x" = "proj" ++ "-" ++ "x" :=
  experimentKey_deterministic.2 "home" "proj" "x" (by decide) (by decide)

/-- Looking up the key just inserted returns the inserted value. -/
theorem lookup_insertMap_self {α : Type} (m : List (String × α)) (k : String)
    (v : α) : lookupMap (insertMap m k v) k = some v := by
  induction m with
  | nil => simp [insertMap, lookupMap]
  | cons p rest ih =>
    obtain ⟨k2, v2⟩ := p
    by_cases h : k2 = k
    · simp [insertMap, h, lookupMap]
    · simp [insertMap, h, lookupMap, ih]

/-- Membership in the keys after an insertion. -/
theorem mem_keys_insertMap {α : Type} (m : List (String × α)) (k : String)
    (v : α) (x : String) :
    x ∈ (insertMap m k v).map Prod.fst ↔ x ∈ m.map Prod.fst ∨ x = k := by
  induction m with
  | nil => simp [insertMap]
  | cons p rest ih =>
    obtain ⟨k2, v2⟩ := p
    by_cases h : k2 = k
    · subst h
      simp [insertMap]
      tauto
    · simp [insertMap, h, ih]
      tauto

/-- Insertion preserves the key-uniqueness invariant. -/
theorem keysUnique_insertMap {α : Type} (m : List (String × α)) (k : String)
    (v : α) (h : keysUnique m) : keysUnique (insertMap m k v) := by
  induction m with
  | nil => simp [insertMap, keysUnique]
  | cons p rest ih =>
    obtain ⟨k2, v2⟩ := p
    by_cases hk : k2 = k
    · subst hk
      have hins : insertMap ((k2, v2) :: rest) k2 v = (k2, v) :: rest := by
        simp [insertMap]
      rw [hins]
      unfold keysUnique at h ⊢
      simpa using h
    · have hins : insertMap ((k2, v2) :: rest) k v =
          (k2, v2) :: insertMap rest k v := by
        simp [insertMap, hk]
      rw [hins]
      unfold keysUnique at h ⊢
      rw [List.map_cons, List.nodup_cons] at h ⊢
      refine ⟨?_, ih h.2⟩
      rw [mem_keys_insertMap]
      rintro (hin | hin)
      · exact h.1 hin
      · exact hk hin

/-- One scan step preserves the key-uniqueness invariant. -/
theorem keysUnique_scanStep (repos : List (String × String))
    (entry : Option String) (h : keysUnique repos) :
    keysUnique (scanStep repos entry) := by
  cases entry with
  | none => exact h
  | some root =>
    unfold scanStep
    cases hl : lookupMap repos (filepathBase root) with
    | some e => simpa [hl] using h
    | none =>
      simp only [hl]
      exact keysUnique_insertMap repos (filepathBase root) root h

/-- The scan loop preserves the key-uniqueness invariant. -/
theorem keysUnique_scan (entries : List (Option String)) :
    ∀ repos, keysUnique repos → keysUnique (scanAndAddRepos repos entries) := by
  induction entries with
  | nil => exact fun repos h => h
  | cons e rest ih =>
    intro repos h
    unfold scanAndAddRepos at ih ⊢
    rw [List.foldl_cons]
    exact ih (scanStep repos e) (keysUnique_scanStep repos e h)

/-- C8: with unique names, registering a repository under a name already bound
to a different root reports an error and leaves the mapping unchanged,
registering the same root under its existing name succeeds as a no-op, and
both `addSingleRepo` and the `scanAndAddRepos` loop preserve the invariant
that each name is bound to at most one path. -/
theorem repoRegistration_unique (expand : String → String)
    (repos : List (String × String)) (root cname : String)
    (hk : keysUnique repos) :
    (∀ e, lookupMap repos (registrationName root cname) = some e →
      (expand e ≠ root →
        addSingleRepo expand repos root cname =
          (Except.error ("name \x27" ++ registrationName root cname ++
            "\x27 already registered for " ++ e), repos)) ∧
      (expand e = root →
        addSingleRepo expand repos root cname = (Except.ok (), repos))) ∧
    keysUnique (addSingleRepo expand repos root cname).2 ∧
    (∀ entries, keysUnique (scanAndAddRepos repos entries)) := by
  refine ⟨?_, ?_, fun entries => keysUnique_scan entries repos hk⟩
  · intro e he
    constructor
    · intro hne
      unfold addSingleRepo
      simp only [he]
      rw [if_neg hne]
    · intro heq
      unfold addSingleRepo
      simp only [he]
      rw [if_pos heq]
  · unfold addSingleRepo
    cases hl : lookupMap repos (registrationName root cname) with
    | some e =>
      by_cases hx : expand e = root
      · simpa [hl, hx] using hk
      · simpa [hl, hx] using hk
    | none =>
      simpa [hl] using
        keysUnique_insertMap repos (registrationName root cname) root hk

/-- Witness for C8 on a concrete one-entry mapping: a conflicting root is
rejected without change, the identical root is a no-op, and uniqueness is
preserved. -/
theorem repoRegistration_unique_witness :
    addSingleRepo id reposWit "/y/proj" "" =
      (Except.error ("name \x27" ++ registrationName "/y/proj" "" ++
        "\x27 already registered for " ++ "/x/proj"), reposWit) ∧
    addSingleRepo id reposWit "/x/proj" "" = (Except.ok (), reposWit) ∧
    keysUnique (addSingleRepo id reposWit "/y/proj" "").2 :=
  ⟨((repoRegistration_unique id reposWit "/y/proj" "" (by decide)).1
      "/x/proj" (by decide)).1 (by decide),
   ((repoRegistration_unique id reposWit "/x/proj" "" (by decide)).1
      "/x/proj" (by decide)).2 rfl,
   (repoRegistration_unique id reposWit "/y/proj" "" (by decide)).2.1⟩

/-- C9: every state `LoadState` returns has non-nil experiment, project, and
scratch maps; a missing state file yields the fresh state (version 1, three
empty maps) without error; and a parsed document that omits or nulls any of
the three maps gets that map defaulted to an allocated empty one. -/
theorem loadState_maps_initialized :
    (∀ r s, LoadState r = Except.ok s →
      s.experiments ≠ none ∧ s.projects ≠ none ∧ s.scratches ≠ none) ∧
    (LoadState ReadResult.notExist = Except.ok freshState ∧
      freshState.version = 1 ∧ freshState.experiments = some [] ∧
      freshState.projects = some [] ∧ freshState.scratches = some []) ∧
    (∀ d s, LoadState (ReadResult.fileOk (some d)) = Except.ok s →
      ((d.experiments = none ∨ d.experiments = some none) →
        s.experiments = some []) ∧
      ((d.projects = none ∨ d.projects = some none) →
        s.projects = some []) ∧
      ((d.scratches = none ∨ d.scratches = some none) →
        s.scratches = some [])) := by
  refine ⟨?_, ⟨rfl, rfl, rfl, rfl, rfl⟩, ?_⟩
  · intro r s hr
    cases r with
    | notExist =>
      simp only [LoadState, Except.ok.injEq] at hr
      subst hr
      simp [freshState]
    | readFailed m => exact absurd hr (by simp [LoadState])
    | fileOk d =>
      cases d with
      | none => exact absurd hr (by simp [LoadState])
      | some doc =>
        simp only [LoadState, Except.ok.injEq] at hr
        subst hr
        simp [ensureMaps]
  · intro d s hr
    simp only [LoadState, Except.ok.injEq] at hr
    subst hr
    refine ⟨?_, ?_, ?_⟩ <;> rintro (h1 | h1) <;>
      simp [ensureMaps, unmarshalInto, h1, freshState]

/-- Witness for C9 at a concrete document nulling two maps and omitting the
third, plus the missing-file case. -/
theorem loadState_maps_initialized_witness :
    LoadState (ReadResult.fileOk (some rawDocWit)) = Except.ok loadedWit ∧
    loadedWit.experiments = some [] ∧ loadedWit.projects = some [] ∧
    loadedWit.scratches = some [] ∧ freshState.experiments ≠ none :=
  ⟨rfl,
   (loadState_maps_initialized.2.2 rawDocWit loadedWit rfl).1 (Or.inr rfl),
   (loadState_maps_initialized.2.2 rawDocWit loadedWit rfl).2.1 (Or.inl rfl),
   (loadState_maps_initialized.2.2 rawDocWit loadedWit rfl).2.2 (Or.inr rfl),
   (loadState_maps_initialized.1 ReadResult.notExist freshState rfl).1⟩

/-- C10: `ExperimentKey` ignores everything of the repo path but its basename,
so two distinct repositories with equal basenames and an equal experiment name
collide on the same key, and adding the second experiment overwrites the
stored record of the first. -/
theorem experimentKey_collision (r1 r2 n : String) (st : State)
    (e1 e2 : Experiment) (hbase : filepathBase r1 = filepathBase r2) :
    ExperimentKey r1 n = ExperimentKey r2 n ∧
    (r1 ≠ r2 → e1.repo = r1 → e1.name = n → e2.repo = r2 → e2.name = n →
      ((st.addExperiment e1).addExperiment e2).getExperiment
        (ExperimentKey r1 n) = some e2) := by
  have hkey : ExperimentKey r1 n = ExperimentKey r2 n := by
    unfold ExperimentKey
    rw [hbase]
  refine ⟨hkey, ?_⟩
  intro hne h1 h2 h3 h4
  show lookupMap
    ((((st.addExperiment e1).addExperiment e2)).experiments.getD [])
    (ExperimentKey r1 n) = some e2
  rw [hkey]
  have : (((st.addExperiment e1).addExperiment e2)).experiments =
      some (insertMap (((st.addExperiment e1)).experiments.getD [])
        (ExperimentKey e2.repo e2.name) e2) := rfl
  rw [this, h3, h4]
  exact lookup_insertMap_self _ _ _

/-- Witness for C10 at the concrete repositories /a/proj and /b/proj. -/
theorem experimentKey_collision_witness :
    ExperimentKey "/a/proj" "x" = ExperimentKey "/b/proj" "x" ∧
    ((freshState.addExperiment expA).addExperiment expB).getExperiment
      (ExperimentKey "/a/proj" "x") = some expB :=
  ⟨(experimentKey_collision "/a/proj" "/b/proj" "x" freshState expA expB
      (by decide)).1,
   (experimentKey_collision "/a/proj" "/b/proj" "x" freshState expA expB
      (by decide)).2 (by decide) rfl rfl rfl rfl⟩

/-- C6: the name validation shared by exp, feat (which reuses
`isValidExpName`), project creation, and scratch accepts a string iff it is
non-empty, its first character is alphanumeric, and every remaining character
is alphanumeric, a hyphen, or an underscore; `isValidScratchName` agrees with
`isValidExpName` on every string. -/
theorem nameValidation_matches_pattern (s : String) :
    (isValidExpName s = true ↔ SpecAcceptsName s) ∧
    isValidScratchName s = isValidExpName s := by
  refine ⟨?_, rfl⟩
  unfold isValidExpName SpecAcceptsName matchNamePattern
  by_cases hs : s = ""
  · subst hs
    simp
  · rw [if_neg hs]
    simp only [hs, ne_eq, not_false_iff, true_and]
    cases hd : s.data with
    | nil => simp [hd]
    | cons c rest =>
      simp only [hd, List.cons.injEq]
      constructor
      · intro h
        rw [Bool.and_eq_true] at h
        refine ⟨c, rest, ⟨rfl, rfl⟩, ?_, ?_⟩
        · have := h.1
          unfold isWordStart at this
          simp only [Bool.or_eq_true, Bool.and_eq_true, decide_eq_true_eq]
            at this
          tauto
        · intro x hx
          have := (List.all_eq_true.mp h.2) x hx
          unfold isWordRest isWordStart at this
          simp only [Bool.or_eq_true, Bool.and_eq_true, decide_eq_true_eq]
            at this
          tauto
      · rintro ⟨c2, rest2, ⟨hc2, hrest2⟩, hstart, hall⟩
        subst hc2
        subst hrest2
        rw [Bool.and_eq_true]
        constructor
        · unfold isWordStart
          simp only [Bool.or_eq_true, Bool.and_eq_true, decide_eq_true_eq]
          tauto
        · rw [List.all_eq_true]
          intro x hx
          have := hall x hx
          unfold isWordRest isWordStart
          simp only [Bool.or_eq_true, Bool.and_eq_true, decide_eq_true_eq]
          tauto

/-- Witness for C6: a concrete valid name is accepted. -/
theorem nameValidation_matches_pattern_witness : isValidExpName "abc" = true :=
  (nameValidation_matches_pattern "abc").1.mpr
    ⟨by decide, 'a', ['b', 'c'], by decide, by decide, by decide⟩

end Clade
